import Mathlib

/-!
Shallow embedding of the CodeForge backend mutation layer (Convex functions
quoted in STUDY/02_BUILD_PROCESS.md, with the current entitlement check of
convex/codeExecutions.ts as recorded in the language-configuration update
summary).  The document store is modelled as explicit lists of rows; every
mutation returns its outcome together with the post-state of the store.  A
thrown JavaScript error is modelled as an `Except.error`; the store component
of the result equals the input store whenever the throw happens before any
write, which is the case on every error path of this code.
-/

namespace CodeForge

/-- users table row (convex/schema.ts): Clerk id, email, name, pro flag and
the optional payment fields patched in by upgradeToPro. -/
structure UserRecord where
  userId : String
  email : String
  name : String
  isPro : Bool
  proSince : Option Nat
  lemonSqueezyCustomerId : Option String
  lemonSqueezyOrderId : Option String
deriving DecidableEq, Repr

/-- snippets table row; `id` stands for the Convex document id `_id`. -/
structure Snippet where
  id : Nat
  userId : String
  userName : String
  title : String
  language : String
  code : String
deriving DecidableEq, Repr

/-- snippetComments table row. -/
structure Comment where
  id : Nat
  snippetId : Nat
  userId : String
  userName : String
  content : String
deriving DecidableEq, Repr

/-- stars table row. -/
structure Star where
  id : Nat
  userId : String
  snippetId : Nat
deriving DecidableEq, Repr

/-- codeExecutions table row. -/
structure Execution where
  id : Nat
  userId : String
  language : String
  code : String
  output : Option String
  error : Option String
deriving DecidableEq, Repr

/-- The five collections of the Convex deployment plus a fresh-id counter
modelling Convex's generation of new document ids on insert. -/
structure Store where
  users : List UserRecord
  snippets : List Snippet
  comments : List Comment
  stars : List Star
  executions : List Execution
  nextId : Nat
deriving DecidableEq, Repr

/-- Failure outcomes.  `unauthenticated`, `forbidden`, `entitlementDenied` and
`invalidSignature` model the explicit throws of the source
(`new Error("Not authenticated")`, `new Error("Not authorized")`,
`new ConvexError("Pro subscription required")`, `new Error("Invalid
signature")`).  `nullAccess` models an accidental JavaScript TypeError raised
by dereferencing a null query result (an untyped crash, distinct from any
structured application error).  `userNotFound` and `notFound` are the
structured errors named by the specification; the source never produces
them. -/
inductive Err where
  | unauthenticated
  | userNotFound
  | notFound
  | forbidden
  | entitlementDenied
  | invalidSignature
  | nullAccess
deriving DecidableEq, Repr

/-- One issued row deletion, used to observe the order of the cascade
inside deleteSnippet. -/
inductive Row where
  | comment (id : Nat)
  | star (id : Nat)
  | snippet (id : Nat)
deriving DecidableEq, Repr

/-- ctx.db.query("users").withIndex("by_user_id", ...).first() -/
def findUser (s : Store) (uid : String) : Option UserRecord :=
  s.users.find? (fun u => u.userId == uid)

/-- Number of user rows carrying a given Clerk id. -/
def countUsers (s : Store) (uid : String) : Nat :=
  (s.users.filter (fun u => u.userId == uid)).length

/-- convex/users.ts syncUser: look the identity up, insert a fresh non-pro
record when absent, otherwise do nothing. -/
def syncUser (userId email name : String) (s : Store) : Store :=
  match findUser s userId with
  | some _ => s
  | none =>
      { s with users := s.users ++ [⟨userId, email, name, false, none, none, none⟩] }

/-- ctx.db.patch on the first user row whose email matches. -/
def patchFirstByEmail (email : String) (f : UserRecord → UserRecord) :
    List UserRecord → List UserRecord
  | [] => []
  | u :: us =>
      if u.email == email then f u :: us else u :: patchFirstByEmail email f us

/-- convex/users.ts upgradeToPro: locate the user by email; when found, set
the pro flag, the proSince timestamp (`now` stands for Date.now()) and the
payment identifiers; when absent, do nothing.  The `amount` argument is
accepted and unused, as in the source. -/
def upgradeToPro (email lsCustomerId lsOrderId : String) (amount : Nat)
    (now : Nat) (s : Store) : Store :=
  match s.users.find? (fun u => u.email == email) with
  | none => s
  | some _ =>
      let _ := amount
      let upd := fun (u : UserRecord) =>
        { u with isPro := true, proSince := some now,
                 lemonSqueezyCustomerId := some lsCustomerId,
                 lemonSqueezyOrderId := some lsOrderId }
      { s with users := patchFirstByEmail email upd s.users }

/-- convex/snippets.ts createSnippet.  The source checks the identity
(`if (!identity) throw new Error("Not authenticated")`) but reads
`user.name` without checking the user query result, so a caller whose
identity was never synced crashes with a TypeError (`nullAccess`) while
building the insert argument, before any row is written. -/
def createSnippet (identity : Option String) (title language code : String)
    (s : Store) : Except Err Nat × Store :=
  match identity with
  | none => (.error .unauthenticated, s)
  | some uid =>
      match findUser s uid with
      | none => (.error .nullAccess, s)
      | some u =>
          (.ok s.nextId,
            { s with
                snippets := s.snippets ++ [⟨s.nextId, uid, u.name, title, language, code⟩],
                nextId := s.nextId + 1 })

/-- One iteration of the comment cascade loop: ctx.db.delete(comment._id),
recorded in the issued-deletes trace. -/
def deleteCommentRow (acc : Store × List Row) (c : Comment) : Store × List Row :=
  ({ acc.1 with comments := acc.1.comments.filter (fun x => x.id != c.id) },
   acc.2 ++ [Row.comment c.id])

/-- One iteration of the star cascade loop: ctx.db.delete(star._id). -/
def deleteStarRow (acc : Store × List Row) (st : Star) : Store × List Row :=
  ({ acc.1 with stars := acc.1.stars.filter (fun x => x.id != st.id) },
   acc.2 ++ [Row.star st.id])

/-- convex/snippets.ts deleteSnippet.  The source reads `snippet.userId`
without checking the ctx.db.get result, so a missing snippet crashes with a
TypeError (`nullAccess`) before any delete; likewise `identity.subject` on a
missing identity.  A non-owner hits the explicit authorization throw.  On
success the source deletes all comments of the snippet, then all its stars,
then the snippet row; the trace component records that order. -/
def deleteSnippet (identity : Option String) (snippetId : Nat) (s : Store) :
    Except Err (List Row) × Store :=
  match s.snippets.find? (fun sn => sn.id == snippetId) with
  | none => (.error .nullAccess, s)
  | some snippet =>
      match identity with
      | none => (.error .nullAccess, s)
      | some uid =>
          if snippet.userId != uid then (.error .forbidden, s)
          else
            let cs := s.comments.filter (fun c => c.snippetId == snippetId)
            let acc1 := cs.foldl deleteCommentRow (s, [])
            let ts := acc1.1.stars.filter (fun st => st.snippetId == snippetId)
            let acc2 := ts.foldl deleteStarRow acc1
            let s3 := { acc2.1 with
                          snippets := acc2.1.snippets.filter (fun x => x.id != snippetId) }
            (.ok (acc2.2 ++ [Row.snippet snippetId]), s3)

/-- convex/snippets.ts starSnippet: look up the (user, snippet) star via the
compound index; delete it when present, insert one when absent. -/
def starSnippet (identity : Option String) (snippetId : Nat) (s : Store) :
    Except Err Unit × Store :=
  match identity with
  | none => (.error .nullAccess, s)
  | some uid =>
      match s.stars.find? (fun st => st.userId == uid && st.snippetId == snippetId) with
      | some st =>
          (.ok (), { s with stars := s.stars.filter (fun x => x.id != st.id) })
      | none =>
          (.ok (), { s with stars := s.stars ++ [⟨s.nextId, uid, snippetId⟩],
                            nextId := s.nextId + 1 })

/-- The free language tags of convex/codeExecutions.ts. -/
def FREE_LANGUAGES : List String := ["javascript", "c", "cpp", "python", "java"]

/-- convex/codeExecutions.ts saveExecution, with the current entitlement
check `if (!user?.isPro && !FREE_LANGUAGES.includes(args.language))` (the
optional chaining treats a caller with no synced user row as non-pro).  On
denial the ConvexError is thrown before the insert. -/
def saveExecution (identity : Option String) (language code : String)
    (output error : Option String) (s : Store) : Except Err Unit × Store :=
  match identity with
  | none => (.error .nullAccess, s)
  | some uid =>
      let user := findUser s uid
      let userIsPro : Bool := match user with
        | some u => u.isPro
        | none => false
      if !userIsPro && !(FREE_LANGUAGES.contains language) then
        (.error .entitlementDenied, s)
      else
        (.ok (),
          { s with
              executions := s.executions ++ [⟨s.nextId, uid, language, code, output, error⟩],
              nextId := s.nextId + 1 })

/-- Per-user execution languages in scan (creation) order. -/
def execLangs (userId : String) (s : Store) : List String :=
  (s.executions.filter (fun e => e.userId == userId)).map (fun e => e.language)

/-- Keys of the languageStats object in JavaScript insertion order: first
occurrence of each language in the scan. -/
def distinctFirst (l : List String) : List String :=
  l.foldl (fun acc x => if acc.contains x then acc else acc ++ [x]) []

/-- languageStats lookup: occurrences of one language in the scan. -/
def countLang (langs : List String) (x : String) : Nat :=
  (langs.filter (fun y => y == x)).length

/-- The favoriteLanguage reduce of getUserStats:
languages.reduce((a, b) => languageStats[a] > languageStats[b] ? a : b),
where `languages` is Object.keys(languageStats).  Empty history is mapped to
`none` (the JavaScript reduce would throw there; no claim touches it). -/
def favoriteOf (langs : List String) : Option String :=
  match distinctFirst langs with
  | [] => none
  | h :: t =>
      some (t.foldl (fun a b => if countLang langs a > countLang langs b then a else b) h)

/-- Result shape of getUserStats (the last24Hours field is elided in the
source document and not modelled). -/
structure Stats where
  totalExecutions : Nat
  languagesCount : Nat
  favoriteLanguage : Option String
deriving DecidableEq, Repr

/-- convex/codeExecutions.ts getUserStats: scan the user's executions,
count them, count distinct languages, and reduce for the favorite. -/
def getUserStats (userId : String) (s : Store) : Stats :=
  let langs := execLangs userId s
  { totalExecutions := langs.length,
    languagesCount := (distinctFirst langs).length,
    favoriteLanguage := favoriteOf langs }

/-- Parsed shape of a Lemon Squeezy webhook payload (meta.event_name and the
order attributes read by the handler). -/
structure WebhookEvent where
  eventName : String
  userEmail : String
  customerId : String
  orderId : String
  total : Nat
deriving DecidableEq, Repr

/-- convex/lemonSqueezy.ts verifyWebhook: recompute the hex HMAC-SHA256 of
the raw payload under the shared secret, throw on mismatch, and return the
parsed payload on success.  `hmac` stands for the external crypto library's
hex digest (an opaque boundary function) and `parse` for JSON.parse plus
field extraction. -/
def verifyWebhook (hmac : String → String → String) (parse : String → WebhookEvent)
    (secret payload signature : String) : Except Err WebhookEvent :=
  if signature == hmac secret payload then .ok (parse payload)
  else .error .invalidSignature

/-- convex/http.ts /lemon-squeezy-webhook: run verification first (a throw
there aborts the whole action before any mutation), then upgrade the user on
an order_created event and ignore other events. -/
def lemonSqueezyWebhook (hmac : String → String → String)
    (parse : String → WebhookEvent) (secret payload signature : String)
    (now : Nat) (s : Store) : Except Err Unit × Store :=
  match verifyWebhook hmac parse secret payload signature with
  | .error e => (.error e, s)
  | .ok evt =>
      if evt.eventName == "order_created" then
        (.ok (), upgradeToPro evt.userEmail evt.customerId evt.orderId evt.total now s)
      else
        (.ok (), s)

/-- Count of star rows for one (user, snippet) pair. -/
def starCount (s : Store) (uid : String) (snippetId : Nat) : Nat :=
  (s.stars.filter (fun st => st.userId == uid && st.snippetId == snippetId)).length

/-- Whether some star row exists for the pair. -/
def isStarred (s : Store) (uid : String) (snippetId : Nat) : Bool :=
  s.stars.any (fun st => st.userId == uid && st.snippetId == snippetId)

/-- The visible rows of the store (everything except the embedding's
fresh-id counter). -/
def storeRows (s : Store) :
    List UserRecord × List Snippet × List Comment × List Star × List Execution :=
  (s.users, s.snippets, s.comments, s.stars, s.executions)

/-- n successive starSnippet calls by the same (user, snippet) pair. -/
def toggleIter (uid : String) (snippetId : Nat) : Nat → Store → Store
  | 0, s => s
  | n + 1, s => (starSnippet (some uid) snippetId (toggleIter uid snippetId n s)).2

/-- Store with no rows at all. -/
def emptyStore : Store := ⟨[], [], [], [], [], 0⟩

/-- A synced free-tier user. -/
def userFree : UserRecord := ⟨"u", "u@x", "U", false, none, none, none⟩

/-- A synced pro user. -/
def userPro : UserRecord := ⟨"p", "p@x", "P", true, none, none, none⟩

/-- Store holding just the free-tier user. -/
def storeFree : Store := ⟨[userFree], [], [], [], [], 1⟩

/-- A snippet owned by user a, used as concrete input. -/
def snippetA : Snippet := ⟨1, "a", "A", "t", "javascript", "x"⟩

/-- Store holding snippetA together with one comment and one star on it. -/
def storeWithSnippet : Store :=
  ⟨[], [snippetA], [⟨2, 1, "c", "C", "hi"⟩], [⟨3, "u2", 1⟩], [], 4⟩

/-- Store holding a single unrelated star row (a different pair). -/
def storeStar : Store := ⟨[], [], [], [⟨0, "v", 9⟩], [], 1⟩

/-- Stand-in for the external HMAC-SHA256 hex digest in concrete
instantiations of the webhook theorems. -/
def constHmac (secret payload : String) : String := secret ++ ":" ++ payload

/-- Stand-in for JSON.parse plus field extraction in concrete
instantiations. -/
def constParse (payload : String) : WebhookEvent :=
  ⟨"order_created", payload, "c", "o", 1⟩

/-- Modelled from the spec: the favorite language the specification
describes — the language tag with the highest per-language count, ties
broken by first-encountered order in the scan. -/
def specFavoriteFirst (langs : List String) : Option String :=
  let ks := distinctFirst langs
  let m := ks.foldl (fun acc x => max acc (countLang langs x)) 0
  (ks.filter (fun x => countLang langs x == m)).head?

/-- Declarative description of what the code's reduce computes: the
language tag with the highest per-language count, ties broken by
last-encountered order in the scan. -/
def specFavoriteLast (langs : List String) : Option String :=
  let ks := distinctFirst langs
  let m := ks.foldl (fun acc x => max acc (countLang langs x)) 0
  (ks.filter (fun x => countLang langs x == m)).getLast?

/-- Execution history [py, py, js] of the specification's scenario. -/
def statsStore : Store :=
  ⟨[], [], [], [],
   [⟨0, "u", "py", "a", none, none⟩, ⟨1, "u", "py", "b", none, none⟩,
    ⟨2, "u", "js", "c", none, none⟩], 3⟩

/-- Execution history [py, js]: a tie between the two languages. -/
def tieStore : Store :=
  ⟨[], [], [], [],
   [⟨0, "u", "py", "a", none, none⟩, ⟨1, "u", "js", "b", none, none⟩], 2⟩

theorem find?_append_of_none {α : Type} (p : α → Bool) {l1 : List α} (l2 : List α)
    (h : l1.find? p = none) : (l1 ++ l2).find? p = l2.find? p := by
  induction l1 with
  | nil => simp
  | cons a l ih =>
      by_cases hpa : p a = true
      · rw [List.find?_cons_of_pos _ hpa] at h
        cases h
      · have hpa' : ¬ (p a = true) := hpa
        rw [List.find?_cons_of_neg _ hpa'] at h
        rw [List.cons_append, List.find?_cons_of_neg _ hpa']
        exact ih h

/-- A sync for an identity that already has a row is a no-op. -/
theorem syncUser_noop {uid : String} {s : Store} (e n : String)
    (h : ∃ u, findUser s uid = some u) : syncUser uid e n s = s := by
  obtain ⟨u, hu⟩ := h
  unfold syncUser
  rw [hu]

theorem findUser_of_countUsers_zero {s : Store} {uid : String}
    (h : countUsers s uid = 0) : findUser s uid = none := by
  unfold countUsers at h
  have hnil : s.users.filter (fun u => u.userId == uid) = [] :=
    List.length_eq_zero.mp h
  unfold findUser
  rw [List.find?_eq_none]
  intro u hu hp
  have : u ∈ s.users.filter (fun u => u.userId == uid) :=
    List.mem_filter.mpr ⟨hu, hp⟩
  simp [hnil] at this

/-- C5: ensureUser (syncUser) is idempotent: from a store without the
identity, one call inserts exactly one non-pro record with the given email
and name, and a second call with any arguments leaves the store entirely
unchanged. -/
theorem syncUser_idempotent (uid e1 n1 e2 n2 : String) (s : Store)
    (h : countUsers s uid = 0) :
    countUsers (syncUser uid e1 n1 s) uid = 1 ∧
    syncUser uid e2 n2 (syncUser uid e1 n1 s) = syncUser uid e1 n1 s ∧
    findUser (syncUser uid e1 n1 s) uid = some ⟨uid, e1, n1, false, none, none, none⟩ := by
  have hf : findUser s uid = none := findUser_of_countUsers_zero h
  have hnil : s.users.filter (fun u => u.userId == uid) = [] :=
    List.length_eq_zero.mp h
  have hs1 : syncUser uid e1 n1 s =
      { s with users := s.users ++ [⟨uid, e1, n1, false, none, none, none⟩] } := by
    unfold syncUser
    rw [hf]
  have hfind : findUser (syncUser uid e1 n1 s) uid =
      some ⟨uid, e1, n1, false, none, none, none⟩ := by
    rw [hs1]
    unfold findUser at hf ⊢
    simp only []
    rw [find?_append_of_none _ _ hf]
    simp
  refine ⟨?_, ?_, hfind⟩
  · rw [hs1]
    unfold countUsers
    simp only [List.filter_append, hnil]
    simp
  · exact syncUser_noop e2 n2 ⟨_, hfind⟩

/-- C5 witness: from an empty store, one sync inserts the single non-pro
record and a second sync with different fields changes nothing. -/
theorem syncUser_idempotent_witness :
    countUsers emptyStore "u" = 0 ∧
    countUsers (syncUser "u" "e1" "n1" emptyStore) "u" = 1 ∧
    syncUser "u" "e2" "n2" (syncUser "u" "e1" "n1" emptyStore) =
      syncUser "u" "e1" "n1" emptyStore ∧
    findUser (syncUser "u" "e1" "n1" emptyStore) "u" =
      some ⟨"u", "e1", "n1", false, none, none, none⟩ := by
  have h := syncUser_idempotent "u" "e1" "n1" "e2" "n2" emptyStore rfl
  exact ⟨rfl, h.1, h.2.1, h.2.2⟩

/-- C1: for a synced user, saveExecution always succeeds on a free language
and appends the one record; outside the free set it is denied exactly for
non-pro users. -/
theorem saveExecution_entitlement (uid language code : String)
    (output error : Option String) (s : Store) (u : UserRecord)
    (h : findUser s uid = some u) :
    (language ∈ FREE_LANGUAGES →
      saveExecution (some uid) language code output error s =
        (.ok (), { s with
            executions := s.executions ++ [⟨s.nextId, uid, language, code, output, error⟩],
            nextId := s.nextId + 1 })) ∧
    (language ∉ FREE_LANGUAGES → u.isPro = false →
      saveExecution (some uid) language code output error s =
        (.error .entitlementDenied, s)) ∧
    (language ∉ FREE_LANGUAGES → u.isPro = true →
      saveExecution (some uid) language code output error s =
        (.ok (), { s with
            executions := s.executions ++ [⟨s.nextId, uid, language, code, output, error⟩],
            nextId := s.nextId + 1 })) := by
  refine ⟨fun h1 => ?_, fun h1 h2 => ?_, fun h1 h2 => ?_⟩ <;>
    simp [saveExecution, h, h1, *]

/-- C1 witness: a non-pro user runs javascript successfully and is denied
rust. -/
theorem saveExecution_entitlement_witness :
    findUser storeFree "u" = some userFree ∧
    saveExecution (some "u") "javascript" "x" none none storeFree =
      (.ok (), { storeFree with
          executions := [⟨1, "u", "javascript", "x", none, none⟩], nextId := 2 }) ∧
    saveExecution (some "u") "rust" "x" none none storeFree =
      (.error .entitlementDenied, storeFree) := by
  have h := saveExecution_entitlement "u" "javascript" "x" none none storeFree userFree rfl
  have h2 := saveExecution_entitlement "u" "rust" "x" none none storeFree userFree rfl
  exact ⟨rfl, h.1 (by decide), h2.2.1 (by decide) rfl⟩

/-- C10: an authenticated caller with no synced user row is treated as
non-pro: free languages still record, gated languages are denied. -/
theorem saveExecution_missing_user (uid language code : String)
    (output error : Option String) (s : Store)
    (h : findUser s uid = none) :
    (language ∈ FREE_LANGUAGES →
      saveExecution (some uid) language code output error s =
        (.ok (), { s with
            executions := s.executions ++ [⟨s.nextId, uid, language, code, output, error⟩],
            nextId := s.nextId + 1 })) ∧
    (language ∉ FREE_LANGUAGES →
      saveExecution (some uid) language code output error s =
        (.error .entitlementDenied, s)) := by
  refine ⟨fun h1 => ?_, fun h1 => ?_⟩ <;>
    simp [saveExecution, h, h1]

/-- C10 witness: with no user row at all, a python run is recorded and a go
run is denied. -/
theorem saveExecution_missing_user_witness :
    findUser emptyStore "u" = none ∧
    saveExecution (some "u") "python" "x" none none emptyStore =
      (.ok (), { emptyStore with
          executions := [⟨0, "u", "python", "x", none, none⟩], nextId := 1 }) ∧
    saveExecution (some "u") "go" "x" none none emptyStore =
      (.error .entitlementDenied, emptyStore) := by
  have h := saveExecution_missing_user "u" "python" "x" none none emptyStore rfl
  have h2 := saveExecution_missing_user "u" "go" "x" none none emptyStore rfl
  exact ⟨rfl, h.1 (by decide), h2.2 (by decide)⟩

/-- C6: a caller other than the owner is rejected by the authorization check
and the store is returned unchanged, so the snippet and all of its comments
and stars remain exactly as they were. -/
theorem deleteSnippet_forbidden (a b : String) (snippetId : Nat) (s : Store)
    (sn : Snippet)
    (h1 : s.snippets.find? (fun x => x.id == snippetId) = some sn)
    (h2 : sn.userId = a) (h3 : b ≠ a) :
    deleteSnippet (some b) snippetId s = (.error .forbidden, s) := by
  have hne : sn.userId ≠ b := by
    rw [h2]
    exact fun hc => h3 hc.symm
  simp [deleteSnippet, h1, hne]

/-- C6 witness: user b fails to delete user a's snippet and nothing in the
store moves. -/
theorem deleteSnippet_forbidden_witness :
    storeWithSnippet.snippets.find? (fun x => x.id == 1) = some snippetA ∧
    snippetA.userId = "a" ∧ ("b" : String) ≠ "a" ∧
    deleteSnippet (some "b") 1 storeWithSnippet = (.error .forbidden, storeWithSnippet) :=
  ⟨rfl, rfl, by decide,
    deleteSnippet_forbidden "a" "b" 1 storeWithSnippet snippetA rfl rfl (by decide)⟩

/-- C7 as amended: deleting a snippet id with no snippet row crashes with
the untyped null dereference (reading snippet.userId on a null get result)
for every caller, leaving the store unchanged; no structured NotFound error
is produced. -/
theorem deleteSnippet_missing (identity : Option String) (snippetId : Nat)
    (s : Store)
    (h : s.snippets.find? (fun sn => sn.id == snippetId) = none) :
    deleteSnippet identity snippetId s = (.error .nullAccess, s) := by
  simp [deleteSnippet, h]

/-- C7 counterexample: on a store without snippet 7 the failure is the
untyped null-access crash, not the structured NotFound the claim states. -/
theorem deleteSnippet_missing_counterexample :
    deleteSnippet (some "u") 7 emptyStore = (.error .nullAccess, emptyStore) ∧
    Err.nullAccess ≠ Err.notFound :=
  ⟨rfl, by decide⟩

/-- C7 witness for the amended claim. -/
theorem deleteSnippet_missing_witness :
    emptyStore.snippets.find? (fun sn => sn.id == 7) = none ∧
    deleteSnippet none 7 emptyStore = (.error .nullAccess, emptyStore) :=
  ⟨rfl, deleteSnippet_missing none 7 emptyStore rfl⟩

/-- C8 as amended: createSnippet fails with the structured Unauthenticated
error when the identity is absent, and crashes with the untyped null
dereference (reading user.name on a null user row) when the identity has no
synced user record; in both cases no snippet row is inserted. -/
theorem createSnippet_failures (uid title language code : String) (s : Store)
    (h : findUser s uid = none) :
    createSnippet none title language code s = (.error .unauthenticated, s) ∧
    createSnippet (some uid) title language code s = (.error .nullAccess, s) := by
  refine ⟨rfl, ?_⟩
  simp [createSnippet, h]

/-- C8 counterexample: with no synced user record the failure is the untyped
null-access crash, not the structured UserNotFound the claim states. -/
theorem createSnippet_nouser_counterexample :
    createSnippet (some "u") "t" "javascript" "x" emptyStore =
      (.error .nullAccess, emptyStore) ∧
    Err.nullAccess ≠ Err.userNotFound :=
  ⟨rfl, by decide⟩

/-- C8 witness for the amended claim. -/
theorem createSnippet_failures_witness :
    findUser emptyStore "u" = none ∧
    createSnippet none "t" "javascript" "x" emptyStore =
      (.error .unauthenticated, emptyStore) ∧
    createSnippet (some "u") "t" "javascript" "x" emptyStore =
      (.error .nullAccess, emptyStore) := by
  have h := createSnippet_failures "u" "t" "javascript" "x" emptyStore rfl
  exact ⟨rfl, h.1, h.2⟩

/-- Effect of the comment cascade loop: only the comments table shrinks (the
rows whose ids occur in the collected list disappear) and the trace grows by
one comment deletion per collected row, in list order. -/
theorem foldl_deleteCommentRow (cs : List Comment) :
    ∀ (s : Store) (ev : List Row),
    cs.foldl deleteCommentRow (s, ev) =
      ({ s with comments := s.comments.filter (fun c => cs.all (fun t => c.id != t.id)) },
       ev ++ cs.map (fun c => Row.comment c.id)) := by
  induction cs with
  | nil => intro s ev; simp
  | cons c cs ih =>
      intro s ev
      rw [List.foldl_cons]
      show cs.foldl deleteCommentRow
        ({ s with comments := s.comments.filter (fun x => x.id != c.id) },
         ev ++ [Row.comment c.id]) = _
      rw [ih]
      simp [List.filter_filter, List.append_assoc, Bool.and_comm]

/-- Effect of the star cascade loop, analogous to the comment loop. -/
theorem foldl_deleteStarRow (ts : List Star) :
    ∀ (s : Store) (ev : List Row),
    ts.foldl deleteStarRow (s, ev) =
      ({ s with stars := s.stars.filter (fun st => ts.all (fun t => st.id != t.id)) },
       ev ++ ts.map (fun t => Row.star t.id)) := by
  induction ts with
  | nil => intro s ev; simp
  | cons t ts ih =>
      intro s ev
      rw [List.foldl_cons]
      show ts.foldl deleteStarRow
        ({ s with stars := s.stars.filter (fun x => x.id != t.id) },
         ev ++ [Row.star t.id]) = _
      rw [ih]
      simp [List.filter_filter, List.append_assoc, Bool.and_comm]

/-- C2: when the owner deletes an existing snippet, the call succeeds, the
deletes are issued children-first (every comment of the snippet, then every
star of it, then the snippet row last), and afterwards no comment, star or
snippet row referencing the snippet remains. -/
theorem deleteSnippet_cascade (uid : String) (snippetId : Nat) (s : Store)
    (sn : Snippet)
    (h1 : s.snippets.find? (fun x => x.id == snippetId) = some sn)
    (h2 : sn.userId = uid) :
    (deleteSnippet (some uid) snippetId s).1 =
      .ok ((s.comments.filter (fun c => c.snippetId == snippetId)).map
              (fun c => Row.comment c.id) ++
           (s.stars.filter (fun st => st.snippetId == snippetId)).map
              (fun st => Row.star st.id) ++
           [Row.snippet snippetId]) ∧
    (∀ c ∈ (deleteSnippet (some uid) snippetId s).2.comments, c.snippetId ≠ snippetId) ∧
    (∀ st ∈ (deleteSnippet (some uid) snippetId s).2.stars, st.snippetId ≠ snippetId) ∧
    (∀ x ∈ (deleteSnippet (some uid) snippetId s).2.snippets, x.id ≠ snippetId) := by
  have hown : (sn.userId != uid) = false := by simp [h2]
  have hd : deleteSnippet (some uid) snippetId s =
      (.ok ((s.comments.filter (fun c => c.snippetId == snippetId)).map
               (fun c => Row.comment c.id) ++
            ((s.stars.filter (fun st => st.snippetId == snippetId)).map
               (fun st => Row.star st.id) ++
             [Row.snippet snippetId])),
       { s with
           comments := s.comments.filter (fun c =>
             (s.comments.filter (fun c2 => c2.snippetId == snippetId)).all
               (fun t => c.id != t.id)),
           stars := s.stars.filter (fun st =>
             (s.stars.filter (fun st2 => st2.snippetId == snippetId)).all
               (fun t => st.id != t.id)),
           snippets := s.snippets.filter (fun x => x.id != snippetId) }) := by
    simp [deleteSnippet, h1, hown, foldl_deleteCommentRow, foldl_deleteStarRow,
      List.append_assoc]
  rw [hd]
  refine ⟨by simp [List.append_assoc], ?_, ?_, ?_⟩
  · intro c hc hsnip
    have hc' := List.mem_filter.mp hc
    have hmem : c ∈ s.comments.filter (fun c2 => c2.snippetId == snippetId) :=
      List.mem_filter.mpr ⟨hc'.1, by simp [hsnip]⟩
    have hall := List.all_eq_true.mp hc'.2 c hmem
    simp at hall
  · intro st hst hsnip
    have hst' := List.mem_filter.mp hst
    have hmem : st ∈ s.stars.filter (fun st2 => st2.snippetId == snippetId) :=
      List.mem_filter.mpr ⟨hst'.1, by simp [hsnip]⟩
    have hall := List.all_eq_true.mp hst'.2 st hmem
    simp at hall
  · intro x hx
    have hx' := List.mem_filter.mp hx
    simpa using hx'.2

/-- C2 witness: deleting the concrete snippet removes its comment, its star
and itself, in that order. -/
theorem deleteSnippet_cascade_witness :
    storeWithSnippet.snippets.find? (fun x => x.id == 1) = some snippetA ∧
    snippetA.userId = "a" ∧
    (deleteSnippet (some "a") 1 storeWithSnippet).1 =
      .ok [Row.comment 2, Row.star 3, Row.snippet 1] ∧
    (∀ c ∈ (deleteSnippet (some "a") 1 storeWithSnippet).2.comments, c.snippetId ≠ 1) ∧
    (∀ st ∈ (deleteSnippet (some "a") 1 storeWithSnippet).2.stars, st.snippetId ≠ 1) ∧
    (∀ x ∈ (deleteSnippet (some "a") 1 storeWithSnippet).2.snippets, x.id ≠ 1) := by
  have h := deleteSnippet_cascade "a" 1 storeWithSnippet snippetA rfl rfl
  exact ⟨rfl, rfl, h.1, h.2.1, h.2.2.1, h.2.2.2⟩

theorem find?_eq_none_of_filter_nil {α : Type} {p : α → Bool} {l : List α}
    (h : l.filter p = []) : l.find? p = none := by
  rw [List.find?_eq_none]
  intro x hx hp
  have : x ∈ l.filter p := List.mem_filter.mpr ⟨hx, hp⟩
  simp [h] at this

theorem isStarred_iff (s : Store) (uid : String) (snippetId : Nat) :
    isStarred s uid snippetId = true ↔ 0 < starCount s uid snippetId := by
  unfold isStarred starCount
  rw [List.any_eq_true]
  constructor
  · rintro ⟨x, hx, hp⟩
    have hm : x ∈ s.stars.filter (fun st => st.userId == uid && st.snippetId == snippetId) :=
      List.mem_filter.mpr ⟨hx, hp⟩
    exact List.length_pos.mpr (fun hnil => by simp [hnil] at hm)
  · intro hlen
    obtain ⟨x, hx⟩ := List.exists_mem_of_length_pos hlen
    have hm := List.mem_filter.mp hx
    exact ⟨x, hm.1, hm.2⟩

/-- One starSnippet call flips the pair's star count between 0 and 1 and
keeps every star id below the fresh-id counter. -/
theorem starSnippet_step (uid : String) (snippetId : Nat) (s : Store)
    (hle : starCount s uid snippetId ≤ 1)
    (hWF : ∀ st ∈ s.stars, st.id < s.nextId) :
    starCount (starSnippet (some uid) snippetId s).2 uid snippetId =
      1 - starCount s uid snippetId ∧
    (∀ st ∈ (starSnippet (some uid) snippetId s).2.stars,
       st.id < (starSnippet (some uid) snippetId s).2.nextId) := by
  rcases Nat.le_one_iff_eq_zero_or_eq_one.mp hle with hc | hc
  · have hnil : s.stars.filter (fun st => st.userId == uid && st.snippetId == snippetId) = [] :=
      List.length_eq_zero.mp hc
    have hf : s.stars.find? (fun st => st.userId == uid && st.snippetId == snippetId) = none :=
      find?_eq_none_of_filter_nil hnil
    have hres : (starSnippet (some uid) snippetId s).2 =
        { s with stars := s.stars ++ [⟨s.nextId, uid, snippetId⟩],
                 nextId := s.nextId + 1 } := by
      simp [starSnippet, hf]
    rw [hres, hc]
    constructor
    · unfold starCount
      simp [List.filter_append, hnil]
    · intro st hst
      rcases List.mem_append.mp hst with hst | hst
      · exact Nat.lt_succ_of_lt (hWF st hst)
      · simp at hst
        rw [hst]
        exact Nat.lt_succ_self _
  · obtain ⟨st, hfs⟩ : ∃ st,
        s.stars.find? (fun st => st.userId == uid && st.snippetId == snippetId) = some st := by
      cases hfind : s.stars.find? (fun st => st.userId == uid && st.snippetId == snippetId) with
      | some st => exact ⟨st, rfl⟩
      | none =>
          have hnil : s.stars.filter
              (fun st => st.userId == uid && st.snippetId == snippetId) = [] := by
            rw [List.filter_eq_nil_iff]
            intro x hx hp
            exact absurd hp (by simpa using List.find?_eq_none.mp hfind x hx)
          rw [starCount, hnil] at hc
          cases hc
    have hpair := List.find?_some hfs
    have hmem := List.mem_of_find?_eq_some hfs
    have hone : s.stars.filter (fun st => st.userId == uid && st.snippetId == snippetId) = [st] := by
      have hm : st ∈ s.stars.filter (fun st => st.userId == uid && st.snippetId == snippetId) :=
        List.mem_filter.mpr ⟨hmem, hpair⟩
      obtain ⟨a, ha⟩ := List.length_eq_one.mp hc
      rw [ha] at hm ⊢
      simp at hm
      rw [hm]
    have hres : (starSnippet (some uid) snippetId s).2 =
        { s with stars := s.stars.filter (fun x => x.id != st.id) } := by
      simp [starSnippet, hfs]
    rw [hres, hc]
    constructor
    · unfold starCount
      have hlen : (s.stars.filter (fun x => x.id != st.id)).filter
          (fun st => st.userId == uid && st.snippetId == snippetId) = [] := by
        rw [List.filter_eq_nil_iff]
        intro x hx hp
        have hx' := List.mem_filter.mp hx
        have hxin : x ∈ s.stars.filter
            (fun st => st.userId == uid && st.snippetId == snippetId) :=
          List.mem_filter.mpr ⟨hx'.1, by simpa using hp⟩
        rw [hone] at hxin
        simp at hxin
        subst hxin
        simp at hx'
      rw [hlen]
      simp
    · intro x hx
      exact hWF x (List.mem_filter.mp hx).1

/-- The toggle invariant: after n toggles the pair's star count is n mod 2
and all ids stay below the counter. -/
theorem toggleIter_invariant (uid : String) (snippetId : Nat) (s : Store)
    (h0 : starCount s uid snippetId = 0)
    (hWF : ∀ st ∈ s.stars, st.id < s.nextId) :
    ∀ n, starCount (toggleIter uid snippetId n s) uid snippetId = n % 2 ∧
      (∀ st ∈ (toggleIter uid snippetId n s).stars,
         st.id < (toggleIter uid snippetId n s).nextId) := by
  intro n
  induction n with
  | zero => exact ⟨by simpa [toggleIter] using h0, by simpa [toggleIter] using hWF⟩
  | succ n ih =>
      have hle : starCount (toggleIter uid snippetId n s) uid snippetId ≤ 1 := by
        rw [ih.1]
        omega
      have hstep := starSnippet_step uid snippetId (toggleIter uid snippetId n s) hle ih.2
      refine ⟨?_, hstep.2⟩
      show starCount (starSnippet (some uid) snippetId (toggleIter uid snippetId n s)).2
        uid snippetId = (n + 1) % 2
      rw [hstep.1, ih.1]
      omega

/-- C3: starting from an unstarred pair, after n toggles the star count for
the pair is n mod 2 (so never two rows exist for the pair and the final
starred state is exactly odd n), and two toggles return every table of the
store to its original rows. -/
theorem starSnippet_parity (uid : String) (snippetId : Nat) (s : Store)
    (h0 : starCount s uid snippetId = 0)
    (hWF : ∀ st ∈ s.stars, st.id < s.nextId) :
    (∀ n, starCount (toggleIter uid snippetId n s) uid snippetId = n % 2) ∧
    (∀ n, starCount (toggleIter uid snippetId n s) uid snippetId ≤ 1) ∧
    (∀ n, isStarred (toggleIter uid snippetId n s) uid snippetId = decide (n % 2 = 1)) ∧
    storeRows (toggleIter uid snippetId 2 s) = storeRows s := by
  have hinv := toggleIter_invariant uid snippetId s h0 hWF
  refine ⟨fun n => (hinv n).1, fun n => by rw [(hinv n).1]; omega, fun n => ?_, ?_⟩
  · rw [Bool.eq_iff_iff, isStarred_iff, (hinv n).1, decide_eq_true_iff]
    omega
  · have hnil : s.stars.filter (fun st => st.userId == uid && st.snippetId == snippetId) = [] :=
      List.length_eq_zero.mp h0
    have hf : s.stars.find? (fun st => st.userId == uid && st.snippetId == snippetId) = none :=
      find?_eq_none_of_filter_nil hnil
    have h1 : toggleIter uid snippetId 1 s =
        { s with stars := s.stars ++ [⟨s.nextId, uid, snippetId⟩],
                 nextId := s.nextId + 1 } := by
      show (starSnippet (some uid) snippetId (toggleIter uid snippetId 0 s)).2 = _
      simp [toggleIter, starSnippet, hf]
    have hself : s.stars.filter (fun x => x.id != s.nextId) = s.stars := by
      rw [List.filter_eq_self]
      intro x hx
      simpa using Nat.ne_of_lt (hWF x hx)
    show storeRows (starSnippet (some uid) snippetId (toggleIter uid snippetId 1 s)).2 =
      storeRows s
    rw [h1]
    simp [starSnippet, storeRows, hf, hself]

/-- C3 witness: toggling the fresh pair three times stars it, toggling it
twice restores the rows. -/
theorem starSnippet_parity_witness :
    starCount storeStar "u" 1 = 0 ∧
    (∀ st ∈ storeStar.stars, st.id < storeStar.nextId) ∧
    starCount (toggleIter "u" 1 3 storeStar) "u" 1 = 3 % 2 ∧
    isStarred (toggleIter "u" 1 2 storeStar) "u" 1 = decide (2 % 2 = 1) ∧
    storeRows (toggleIter "u" 1 2 storeStar) = storeRows storeStar := by
  have h := starSnippet_parity "u" 1 storeStar rfl (by decide)
  exact ⟨rfl, by decide, h.1 3, h.2.2.1 2, h.2.2.2⟩

/-- C4: a payload whose signature header differs from the hex HMAC digest of
the body is rejected with InvalidSignature and the store — hence every
user's isPro flag — is untouched; verification succeeds exactly when the
header equals the digest byte for byte. -/
theorem lemonSqueezyWebhook_signature (hmac : String → String → String)
    (parse : String → WebhookEvent) (secret payload signature : String)
    (now : Nat) (s : Store) :
    (signature ≠ hmac secret payload →
      lemonSqueezyWebhook hmac parse secret payload signature now s =
        (.error .invalidSignature, s)) ∧
    (signature ≠ hmac secret payload →
      (lemonSqueezyWebhook hmac parse secret payload signature now s).2 = s) ∧
    ((∃ evt, verifyWebhook hmac parse secret payload signature = .ok evt) ↔
      signature = hmac secret payload) := by
  refine ⟨fun hne => ?_, fun hne => ?_, ?_⟩
  · have hv : verifyWebhook hmac parse secret payload signature =
        .error .invalidSignature := by
      simp [verifyWebhook, hne]
    simp [lemonSqueezyWebhook, hv]
  · have hv : verifyWebhook hmac parse secret payload signature =
        .error .invalidSignature := by
      simp [verifyWebhook, hne]
    simp [lemonSqueezyWebhook, hv]
  · unfold verifyWebhook
    by_cases h : signature = hmac secret payload
    · simp [h]
    · simp [h]

/-- C4 witness: a wrong header is rejected with the store intact, and the
correct header verifies. -/
theorem lemonSqueezyWebhook_signature_witness :
    ("bad" : String) ≠ constHmac "sec" "p" ∧
    lemonSqueezyWebhook constHmac constParse "sec" "p" "bad" 5 storeFree =
      (.error .invalidSignature, storeFree) ∧
    (∃ evt, verifyWebhook constHmac constParse "sec" "p" (constHmac "sec" "p") =
      .ok evt) := by
  have h := lemonSqueezyWebhook_signature constHmac constParse "sec" "p" "bad" 5 storeFree
  have h2 := lemonSqueezyWebhook_signature constHmac constParse "sec" "p"
    (constHmac "sec" "p") 5 storeFree
  exact ⟨by decide, h.1 (by decide), h2.2.2.mpr rfl⟩

/-- C9 counterexample: over the records [py, js] the code's reduce returns
js, while the claimed first-encountered tie-break demands py. -/
theorem getUserStats_tiebreak_counterexample :
    (getUserStats "u" tieStore).favoriteLanguage = some "js" ∧
    specFavoriteFirst (execLangs "u" tieStore) = some "py" ∧
    (some "js" : Option String) ≠ some "py" :=
  ⟨rfl, rfl, by decide⟩

theorem foldl_max_init (c : String → Nat) (l : List String) :
    ∀ a, l.foldl (fun acc y => max acc (c y)) a =
      max a (l.foldl (fun acc y => max acc (c y)) 0) := by
  induction l with
  | nil => intro a; simp
  | cons x l ih =>
      intro a
      rw [List.foldl_cons, List.foldl_cons, ih (max a (c x)), ih (max 0 (c x))]
      simp [Nat.max_assoc, Nat.zero_max]

/-- The reduce of the source — keep the accumulator only while its count is
strictly larger — returns the last element of the list attaining the maximal
count. -/
theorem foldl_favorite_lastMax (c : String → Nat) :
    ∀ (t : List String) (h : String),
    ((h :: t).filter
        (fun x => c x == (h :: t).foldl (fun acc x => max acc (c x)) 0)).getLast? =
      some (t.foldl (fun a b => if c a > c b then a else b) h) := by
  intro t
  induction t with
  | nil =>
      intro h
      simp [Nat.zero_max]
  | cons b t2 ih =>
      intro h
      have hMfull : (h :: b :: t2).foldl (fun acc x => max acc (c x)) 0 =
          max (c h) ((b :: t2).foldl (fun acc x => max acc (c x)) 0) := by
        rw [List.foldl_cons, foldl_max_init]
        simp [Nat.zero_max]
      have hMb : (b :: t2).foldl (fun acc x => max acc (c x)) 0 =
          max (c b) (t2.foldl (fun acc x => max acc (c x)) 0) := by
        rw [List.foldl_cons, foldl_max_init]
        simp [Nat.zero_max]
      conv_rhs => rw [List.foldl_cons]
      by_cases hgt : c h > c b
      · have hpb : (c b == (h :: b :: t2).foldl (fun acc x => max acc (c x)) 0) = false := by
          rw [beq_eq_false_iff_ne]
          have hlt : c b < (h :: b :: t2).foldl (fun acc x => max acc (c x)) 0 := by
            rw [hMfull]
            exact lt_of_lt_of_le hgt (Nat.le_max_left _ _)
          exact Nat.ne_of_lt hlt
        have hfilter : (h :: b :: t2).filter
            (fun x => c x == (h :: b :: t2).foldl (fun acc x => max acc (c x)) 0) =
            (h :: t2).filter
              (fun x => c x == (h :: b :: t2).foldl (fun acc x => max acc (c x)) 0) := by
          simp only [List.filter_cons, hpb]
          simp
        have hMh : (h :: b :: t2).foldl (fun acc x => max acc (c x)) 0 =
            (h :: t2).foldl (fun acc x => max acc (c x)) 0 := by
          have hMh2 : (h :: t2).foldl (fun acc x => max acc (c x)) 0 =
              max (c h) (t2.foldl (fun acc x => max acc (c x)) 0) := by
            rw [List.foldl_cons, foldl_max_init]
            simp [Nat.zero_max]
          rw [hMfull, hMb, hMh2, ← Nat.max_assoc,
            Nat.max_eq_left (Nat.le_of_lt hgt)]
        rw [hfilter, hMh, if_pos hgt]
        exact ih h
      · have hchle : c h ≤ (b :: t2).foldl (fun acc x => max acc (c x)) 0 := by
          rw [hMb]
          exact le_trans (Nat.le_of_not_lt hgt) (Nat.le_max_left _ _)
        have hM : (h :: b :: t2).foldl (fun acc x => max acc (c x)) 0 =
            (b :: t2).foldl (fun acc x => max acc (c x)) 0 := by
          rw [hMfull]
          exact Nat.max_eq_right hchle
        rw [hM, if_neg hgt]
        by_cases hh : c h = (b :: t2).foldl (fun acc x => max acc (c x)) 0
        · have hcb : c b = (b :: t2).foldl (fun acc x => max acc (c x)) 0 := by
            refine le_antisymm ?_ ?_
            · rw [hMb]
              exact Nat.le_max_left _ _
            · rw [← hh]
              exact Nat.le_of_not_lt hgt
          have hpht : (c h == (b :: t2).foldl (fun acc x => max acc (c x)) 0) = true := by
            rw [beq_iff_eq]
            exact hh
          have hpbt : (c b == (b :: t2).foldl (fun acc x => max acc (c x)) 0) = true := by
            rw [beq_iff_eq]
            exact hcb
          have hfh : (h :: b :: t2).filter
              (fun x => c x == (b :: t2).foldl (fun acc x => max acc (c x)) 0) =
              h :: b :: t2.filter
                (fun x => c x == (b :: t2).foldl (fun acc x => max acc (c x)) 0) := by
            simp only [List.filter_cons, hpht, hpbt]
            simp
          have hfb : (b :: t2).filter
              (fun x => c x == (b :: t2).foldl (fun acc x => max acc (c x)) 0) =
              b :: t2.filter
                (fun x => c x == (b :: t2).foldl (fun acc x => max acc (c x)) 0) := by
            simp only [List.filter_cons, hpbt]
            simp
          rw [hfh, List.getLast?_cons_cons]
          have hgoal := ih b
          rw [hfb] at hgoal
          exact hgoal
        · have hph : (c h == (b :: t2).foldl (fun acc x => max acc (c x)) 0) = false := by
            rw [beq_eq_false_iff_ne]
            exact hh
          have hfh : (h :: b :: t2).filter
              (fun x => c x == (b :: t2).foldl (fun acc x => max acc (c x)) 0) =
              (b :: t2).filter
                (fun x => c x == (b :: t2).foldl (fun acc x => max acc (c x)) 0) := by
            simp only [List.filter_cons, hph]
            simp
          rw [hfh]
          exact ih b

theorem mem_foldl_distinct (l : List String) :
    ∀ (acc : List String) (x : String),
      (x ∈ l.foldl (fun acc y => if acc.contains y then acc else acc ++ [y]) acc) ↔
        x ∈ acc ∨ x ∈ l := by
  induction l with
  | nil => intro acc x; simp
  | cons y l ih =>
      intro acc x
      rw [List.foldl_cons]
      by_cases hy : acc.contains y = true
      · rw [if_pos hy, ih]
        have hyy : y ∈ acc := by simpa using hy
        constructor
        · rintro (h | h)
          · exact Or.inl h
          · exact Or.inr (List.mem_cons_of_mem _ h)
        · rintro (h | h)
          · exact Or.inl h
          · rcases List.mem_cons.mp h with rfl | h
            · exact Or.inl hyy
            · exact Or.inr h
      · rw [if_neg hy, ih]
        simp only [List.mem_append, List.mem_cons, List.mem_singleton,
          List.not_mem_nil, or_false]
        tauto

theorem nodup_foldl_distinct (l : List String) :
    ∀ (acc : List String), acc.Nodup →
      (l.foldl (fun acc y => if acc.contains y then acc else acc ++ [y]) acc).Nodup := by
  induction l with
  | nil => intro acc h; simpa using h
  | cons y l ih =>
      intro acc h
      rw [List.foldl_cons]
      by_cases hy : acc.contains y = true
      · rw [if_pos hy]
        exact ih acc h
      · rw [if_neg hy]
        refine ih _ ?_
        have hyn : y ∉ acc := by
          intro hc
          exact hy (by simpa using hc)
        simp [List.nodup_append, h, hyn]

/-- The key distinct-list count: the insertion-ordered key list of the
languageStats object has one entry per distinct language of the scan. -/
theorem distinctFirst_length (l : List String) :
    (distinctFirst l).length = l.toFinset.card := by
  have hnd : (distinctFirst l).Nodup := nodup_foldl_distinct l [] (by simp)
  have hmem : ∀ x, x ∈ distinctFirst l ↔ x ∈ l := by
    intro x
    rw [distinctFirst, mem_foldl_distinct]
    simp
  rw [← List.toFinset_card_of_nodup hnd]
  congr 1
  ext x
  simp [List.mem_toFinset, hmem x]

/-- The code's favoriteLanguage agrees with the last-encountered-tie-break
description on every history. -/
theorem favoriteOf_eq_specLast (langs : List String) :
    favoriteOf langs = specFavoriteLast langs := by
  unfold favoriteOf specFavoriteLast
  cases hks : distinctFirst langs with
  | nil => simp
  | cons h t => simpa using (foldl_favorite_lastMax (countLang langs) t h).symm

/-- C9 as amended: getUserStats returns the total record count, the number
of distinct language tags, and the favorite language with the highest
per-language count where ties are broken by LAST-encountered order in the
scan; the scenario [py, py, js] still yields py, 3, 2. -/
theorem getUserStats_spec (uid : String) (s : Store) :
    (getUserStats uid s).totalExecutions = (execLangs uid s).length ∧
    (getUserStats uid s).languagesCount = (execLangs uid s).toFinset.card ∧
    (getUserStats uid s).favoriteLanguage = specFavoriteLast (execLangs uid s) ∧
    getUserStats "u" statsStore = ⟨3, 2, some "py"⟩ := by
  refine ⟨rfl, ?_, ?_, by rfl⟩
  · show (distinctFirst (execLangs uid s)).length = _
    exact distinctFirst_length _
  · exact favoriteOf_eq_specLast _

end CodeForge
